import Mathlib

/-!
# Verification of the wespeaker attentive pooling layers

A shallow embedding of `wespeaker/models/pooling_layers.py` over exact real
arithmetic.  Tensors are modelled as total index functions `ℕ → ℕ → ℕ → ℝ`
(batch, channel, time); the logical shape of a tensor is carried separately
(in the `PIn`/`POut` wrappers) exactly where the Python code inspects
`x.shape`.  Values at indices outside the logical shape are junk and are never
read by an in-range output, mirroring how a PyTorch tensor simply has no such
entries.  Floating point is modelled by the real numbers: every claim below is
about the exact arithmetic the code writes down (sums, `exp`, `tanh`, `sqrt`,
`clamp`), not about rounding.
-/

open Finset

noncomputable section

/-- A rank-3 tensor, indexed (batch, channel, time). -/
abbrev Tensor3 : Type := ℕ → ℕ → ℕ → ℝ

/-- A rank-4 tensor, indexed (batch, channel, frequency, time). -/
abbrev Tensor4 : Type := ℕ → ℕ → ℕ → ℕ → ℝ

/-- Parameters of `nn.Conv1d(cin, cout, kernel_size=1)`: a pointwise-in-time
affine map.  `weight o i` is the kernel entry for output channel `o`, input
channel `i`; `bias o` the bias of output channel `o`. -/
structure Conv1d where
  weight : ℕ → ℕ → ℝ
  bias : ℕ → ℝ

/-- `nn.Conv1d` with kernel size 1 applied to a (batch, channel, time) tensor:
for each batch element and time step, output channel `o` is the affine
combination of the `cin` input channels. -/
def Conv1d.apply (p : Conv1d) (cin : ℕ) (x : Tensor3) : Tensor3 :=
  fun b o t => (∑ i ∈ range cin, p.weight o i * x b i t) + p.bias o

/-- `torch.softmax(s, dim=2)` over a time axis of length `T`, per
(batch, channel) pair. -/
def softmaxTime (T : ℕ) (s : Tensor3) : Tensor3 :=
  fun b c t => Real.exp (s b c t) / ∑ u ∈ range T, Real.exp (s b c u)

/-- `torch.mean(x, dim=-1)` over a time axis of length `T`. -/
def timeMean (T : ℕ) (x : Tensor3) (b c : ℕ) : ℝ :=
  (∑ t ∈ range T, x b c t) / T

/-- `torch.var(x, dim=-1)` (unbiased, the PyTorch default) over a time axis of
length `T`. -/
def unbiasedVarTime (T : ℕ) (x : Tensor3) (b c : ℕ) : ℝ :=
  (∑ t ∈ range T, (x b c t - timeMean T x b c) ^ 2) / ((T : ℝ) - 1)

/-- `nn.ReLU`. -/
def relu (v : ℝ) : ℝ := max v 0

/-- `nn.Softplus(beta=1, threshold=20)`: the identity above the threshold,
`log (1 + exp v)` below it. -/
def softplus (v : ℝ) : ℝ := if 20 < v then v else Real.log (1 + Real.exp v)

/-! ## Softmax facts shared by all attentive poolers -/

/-- Softmax entries are non-negative. -/
theorem softmaxTime_nonneg (T : ℕ) (s : Tensor3) (b c t : ℕ) :
    0 ≤ softmaxTime T s b c t := by
  unfold softmaxTime
  exact div_nonneg (Real.exp_pos _).le
    (Finset.sum_nonneg fun _ _ => (Real.exp_pos _).le)

/-- The denominator of a softmax over a non-empty axis is positive. -/
theorem softmaxTime_denom_pos (T : ℕ) (hT : 0 < T) (s : Tensor3) (b c : ℕ) :
    0 < ∑ u ∈ range T, Real.exp (s b c u) :=
  Finset.sum_pos (fun _ _ => Real.exp_pos _)
    (Finset.nonempty_range_iff.mpr (Nat.pos_iff_ne_zero.mp hT))

/-- Softmax over a non-empty axis sums to 1. -/
theorem softmaxTime_sum (T : ℕ) (hT : 0 < T) (s : Tensor3) (b c : ℕ) :
    ∑ t ∈ range T, softmaxTime T s b c t = 1 := by
  unfold softmaxTime
  rw [← Finset.sum_div]
  exact div_self (ne_of_gt (softmaxTime_denom_pos T hT s b c))

/-- Each softmax entry over a non-empty axis is strictly positive. -/
theorem softmaxTime_pos (T : ℕ) (hT : 0 < T) (s : Tensor3) (b c t : ℕ) :
    0 < softmaxTime T s b c t :=
  div_pos (Real.exp_pos _) (softmaxTime_denom_pos T hT s b c)

/-! ## ASTP: attentive statistics pooling -/

/-- The `ASTP` module: `in_dim`, `bottleneck_dim`, the `global_context_att`
flag and the two pointwise convolutions `linear1`, `linear2`. -/
structure ASTP where
  in_dim : ℕ
  bottleneck_dim : ℕ
  global_context_att : Bool
  linear1 : Conv1d
  linear2 : Conv1d

/-- Number of input channels of `linear1`: `3 * in_dim` with global context,
`in_dim` without. -/
def ASTP.lin1In (p : ASTP) : ℕ :=
  if p.global_context_att then 3 * p.in_dim else p.in_dim

/-- The broadcast context standard deviation
`sqrt(var(x, dim=-1) + 1e-7)` used by global-context attention. -/
def ASTP.ctxStd (T : ℕ) (x : Tensor3) (b c : ℕ) : ℝ :=
  Real.sqrt (unbiasedVarTime T x b c + 1e-7)

/-- The scorer input `x_in`: either `x` itself or
`torch.cat((x, context_mean, context_std), dim=1)`.  The three blocks of the
concatenation are decoded by channel index, using the module's `in_dim` as the
channel width of a valid input. -/
def ASTP.xin (p : ASTP) (T : ℕ) (x : Tensor3) : Tensor3 :=
  if p.global_context_att then
    fun b i t =>
      if i < p.in_dim then x b i t
      else if i < 2 * p.in_dim then timeMean T x b (i - p.in_dim)
      else ASTP.ctxStd T x b (i - 2 * p.in_dim)
  else x

/-- The attention weights `alpha`: `softmax(linear2(tanh(linear1(x_in))), dim=2)`. -/
def ASTP.alpha (p : ASTP) (T : ℕ) (x : Tensor3) : Tensor3 :=
  softmaxTime T (p.linear2.apply p.bottleneck_dim
    (fun b c t => Real.tanh ((p.linear1.apply p.lin1In (p.xin T x)) b c t)))

/-- The attention-weighted mean `torch.sum(alpha * x, dim=2)`. -/
def ASTP.meanOut (p : ASTP) (T : ℕ) (x : Tensor3) (b c : ℕ) : ℝ :=
  ∑ t ∈ range T, p.alpha T x b c t * x b c t

/-- The attention-weighted standard deviation
`sqrt((sum(alpha * x^2) - mean^2).clamp(min=1e-7))`. -/
def ASTP.stdOut (p : ASTP) (T : ℕ) (x : Tensor3) (b c : ℕ) : ℝ :=
  Real.sqrt
    (max ((∑ t ∈ range T, p.alpha T x b c t * x b c t ^ 2) -
      p.meanOut T x b c ^ 2) 1e-7)

/-- `torch.cat([mean, std], dim=1)` on a rank-3 input of `C` channels: the
first `C` output columns are the weighted means, the next `C` the weighted
standard deviations. -/
def ASTP.fwd3 (p : ASTP) (C T : ℕ) (x : Tensor3) : ℕ → ℕ → ℝ :=
  fun b o => if o < C then p.meanOut T x b o else p.stdOut T x b (o - C)

/-! ## MHASTP: multi-head attentive statistics pooling -/

/-- The per-head scorer `att_trans`: one `Conv1d` per layer index (only the
first `layer_num` entries are meaningful). -/
structure HeadTrans where
  convs : ℕ → Conv1d

/-- The `MHASTP` module, with one `HeadTrans` per head index. -/
structure MHASTP where
  in_dim : ℕ
  layer_num : ℕ
  head_num : ℕ
  d_s : ℕ
  bottleneck_dim : ℕ
  heads : ℕ → HeadTrans

/-- `d_model = in_dim / head_num`, the channel width of each head. -/
def MHASTP.d_model (p : MHASTP) : ℕ := p.in_dim / p.head_num

/-- The effective `d_s`: the constructor replaces `d_s > 1` by `d_model` and
anything else by 1. -/
def MHASTP.dsEff (p : MHASTP) : ℕ := if 1 < p.d_s then p.d_model else 1

/-- `channel_dims`: filled with `bottleneck_dim`, then
`channel_dims[0], channel_dims[-1] = d_model, d_s` (the `[-1]` write happens
second, so it wins when `layer_num = 0`). -/
def MHASTP.cd (p : MHASTP) (i : ℕ) : ℕ :=
  if i = p.layer_num then p.dsEff else if i = 0 then p.d_model else p.bottleneck_dim

/-- `torch.chunk(input, head_num, 1)`: head `h` owns the contiguous channel
block starting at `h * d_model`. -/
def MHASTP.chunk (p : MHASTP) (h : ℕ) (x : Tensor3) : Tensor3 :=
  fun b j t => x b (h * p.d_model + j) t

/-- The first `k` layers of head `h`'s scorer: each is a `Conv1d` followed by
`Tanh` (the loop `for i in range(layer_num - 1)` of the constructor). -/
def MHASTP.stage (p : MHASTP) (h : ℕ) (x : Tensor3) : ℕ → Tensor3
  | 0 => p.chunk h x
  | k + 1 => fun b c t =>
      Real.tanh ((((p.heads h).convs k).apply (p.cd k) (p.stage h x k)) b c t)

/-- `att_score = self.heads_att_trans[h](chunks[h])`: the final convolution
(layer `layer_num - 1`) applied on top of the tanh stack, with no nonlinearity
after it. -/
def MHASTP.attScore (p : MHASTP) (h : ℕ) (x : Tensor3) : Tensor3 :=
  ((p.heads h).convs (p.layer_num - 1)).apply (p.cd (p.layer_num - 1))
    (p.stage h x (p.layer_num - 1))

/-- `alpha = F.softmax(att_score, dim=-1)` for head `h`. -/
def MHASTP.alphaH (p : MHASTP) (h T : ℕ) (x : Tensor3) : Tensor3 :=
  softmaxTime T (p.attScore h x)

/-- `mean = torch.sum(alpha * chunks[h], dim=2)`.  `alpha` has `dsEff`
channels and `chunks[h]` has `d_model`; PyTorch broadcasting pairs channel `c`
of the chunk with channel `c % dsEff` of `alpha` (which is channel 0 when
`dsEff = 1` and channel `c` when `dsEff = d_model`, the only two shapes the
constructor produces). -/
def MHASTP.headMean (p : MHASTP) (h T : ℕ) (x : Tensor3) (b c : ℕ) : ℝ :=
  ∑ t ∈ range T, p.alphaH h T x b (c % p.dsEff) t * p.chunk h x b c t

/-- `std = sqrt((sum(alpha * chunks[h]^2) - mean^2).clamp(min=1e-7))`. -/
def MHASTP.headStd (p : MHASTP) (h T : ℕ) (x : Tensor3) (b c : ℕ) : ℝ :=
  Real.sqrt
    (max ((∑ t ∈ range T, p.alphaH h T x b (c % p.dsEff) t * p.chunk h x b c t ^ 2) -
      p.headMean h T x b c ^ 2) 1e-7)

/-- `out = torch.cat(chunks_out, dim=1)` where
`chunks_out[h] = torch.cat((mean, std), dim=1)`: output column `o` belongs to
head `o / (2 * d_model)`, and within the head the first `d_model` columns are
the mean, the rest the standard deviation. -/
def MHASTP.fwd3 (p : MHASTP) (T : ℕ) (x : Tensor3) : ℕ → ℕ → ℝ :=
  fun b o =>
    if o % (2 * p.d_model) < p.d_model then
      p.headMean (o / (2 * p.d_model)) T x b (o % (2 * p.d_model))
    else
      p.headStd (o / (2 * p.d_model)) T x b (o % (2 * p.d_model) - p.d_model)

/-- `MHASTP.__init__`: `assert (in_dim % head_num) == 0` — an indivisible
configuration raises at construction time, and `head_num = 0` raises Python's
`ZeroDivisionError` there as well. -/
def MHASTP.init (in_dim layer_num head_num d_s bottleneck_dim : ℕ)
    (hs : ℕ → HeadTrans) : Except String MHASTP :=
  if head_num = 0 then Except.error "ZeroDivisionError"
  else if in_dim % head_num = 0 then
    Except.ok ⟨in_dim, layer_num, head_num, d_s, bottleneck_dim, hs⟩
  else Except.error "AssertionError"

/-! ## MQMHASTP: multi-query multi-head attentive statistics pooling -/

/-- The `MQMHASTP` module: the shared child configuration plus one family of
head parameters per query index. -/
structure MQMHASTP where
  in_dim : ℕ
  layer_num : ℕ
  query_num : ℕ
  head_num : ℕ
  d_s : ℕ
  bottleneck_dim : ℕ
  qheads : ℕ → ℕ → HeadTrans

/-- Child `q` of the `ModuleList`: an `MHASTP` with the forwarded
configuration and its own parameters. -/
def MQMHASTP.child (m : MQMHASTP) (q : ℕ) : MHASTP :=
  ⟨m.in_dim, m.layer_num, m.head_num, m.d_s, m.bottleneck_dim, m.qheads q⟩

/-- `torch.cat(res, dim=-1)` over the `query_num` child outputs, each of
width `2 * C` on a `C`-channel input: column `o` belongs to child
`o / (2 * C)` at its column `o % (2 * C)`. -/
def MQMHASTP.fwd3 (m : MQMHASTP) (C T : ℕ) (x : Tensor3) : ℕ → ℕ → ℝ :=
  fun b o => (m.child (o / (2 * C))).fwd3 T x b (o % (2 * C))

/-- The `query_num` children of the `ModuleList`, each constructed through
`MHASTP.init` (so a failing child assert aborts the whole construction). -/
def MQMHASTP.buildChildren (in_dim layer_num head_num d_s bottleneck_dim : ℕ)
    (qh : ℕ → ℕ → HeadTrans) : ℕ → Except String (List MHASTP)
  | 0 => Except.ok []
  | n + 1 => do
      let rest ← MQMHASTP.buildChildren in_dim layer_num head_num d_s bottleneck_dim qh n
      let c ← MHASTP.init in_dim layer_num head_num d_s bottleneck_dim (qh n)
      Except.ok (rest ++ [c])

/-- `MQMHASTP.__init__`: eagerly instantiates its `query_num` `MHASTP`
children — any child construction error is raised here. -/
def MQMHASTP.init (in_dim layer_num query_num head_num d_s bottleneck_dim : ℕ)
    (qh : ℕ → ℕ → HeadTrans) : Except String MQMHASTP :=
  match MQMHASTP.buildChildren in_dim layer_num head_num d_s bottleneck_dim qh query_num with
  | Except.error e => Except.error e
  | Except.ok _ =>
      Except.ok ⟨in_dim, layer_num, query_num, head_num, d_s, bottleneck_dim, qh⟩

/-- `Except.isOk` without depending on library helpers. -/
def isOkE {ε α : Type} : Except ε α → Bool
  | Except.ok _ => true
  | Except.error _ => false

/-! ## BatchNorm1d -/

/-- Learnable parameters and constants of `nn.BatchNorm1d`. -/
structure BatchNorm where
  weight : ℕ → ℝ
  bias : ℕ → ℝ
  momentum : ℝ
  eps : ℝ

/-- The mutable buffers of a `BatchNorm1d` module. -/
structure BNState where
  running_mean : ℕ → ℝ
  running_var : ℕ → ℝ
  num_batches_tracked : ℕ

/-- Per-channel mean over the batch and time axes. -/
def batchMean (B T : ℕ) (x : Tensor3) (c : ℕ) : ℝ :=
  (∑ b ∈ range B, ∑ t ∈ range T, x b c t) / (B * T : ℕ)

/-- Per-channel biased variance over the batch and time axes (the statistic
batch norm normalizes with in training mode). -/
def batchVar (B T : ℕ) (x : Tensor3) (c : ℕ) : ℝ :=
  (∑ b ∈ range B, ∑ t ∈ range T, (x b c t - batchMean B T x c) ^ 2) / (B * T : ℕ)

/-- The output of `BatchNorm1d`: batch statistics in training mode, the
running statistics in eval mode. -/
def BatchNorm.out (p : BatchNorm) (training : Bool) (st : BNState) (B T : ℕ)
    (x : Tensor3) : Tensor3 :=
  if training then
    fun b c t =>
      p.weight c * ((x b c t - batchMean B T x c) / Real.sqrt (batchVar B T x c + p.eps))
        + p.bias c
  else
    fun b c t =>
      p.weight c * ((x b c t - st.running_mean c) / Real.sqrt (st.running_var c + p.eps))
        + p.bias c

/-- The buffer update a forward call performs: in training mode the running
statistics move toward the batch statistics (the running variance uses the
unbiased estimate) and `num_batches_tracked` increments; eval mode leaves the
state untouched. -/
def BatchNorm.step (p : BatchNorm) (training : Bool) (st : BNState) (B T : ℕ)
    (x : Tensor3) : BNState :=
  if training then
    { running_mean := fun c =>
        (1 - p.momentum) * st.running_mean c + p.momentum * batchMean B T x c,
      running_var := fun c =>
        (1 - p.momentum) * st.running_var c +
          p.momentum * (batchVar B T x c * (B * T : ℕ) / ((B * T : ℕ) - 1)),
      num_batches_tracked := st.num_batches_tracked + 1 }
  else st

/-! ## XI: precision-weighted posterior pooling -/

/-- The `XI` module: prior mean and log-precision vectors, the log-precision
estimator `lin1 → ReLU → BatchNorm → lin2 → Softplus`, and the `stddev`
flag. -/
structure XI where
  input_dim : ℕ
  hidden_size : ℕ
  stddev : Bool
  prior_mean : ℕ → ℝ
  prior_logprec : ℕ → ℝ
  lin1 : Conv1d
  bn : BatchNorm
  lin2 : Conv1d

/-- `ReLU(lin1(x))`, the input handed to the batch norm (`lin1_relu_bn` up to
its batch-norm stage). -/
def XI.preact (p : XI) (x : Tensor3) : Tensor3 :=
  fun b c t => relu ((p.lin1.apply p.input_dim x) b c t)

/-- The per-frame log-precision
`2.0 * log(softplus2(lin2(lin1_relu_bn(feat))))`. -/
def XI.logprec (p : XI) (training : Bool) (st : BNState) (B T : ℕ)
    (x : Tensor3) : Tensor3 :=
  fun b c t =>
    2 * Real.log (softplus
      ((p.lin2.apply p.hidden_size (p.bn.out training st B T (p.preact x))) b c t))

/-- The augmented log-precision sequence
`torch.cat((logprec, prior_logprec.repeat(B, 1).unsqueeze(2)), 2)`: the first
`T` time indices are the per-frame log-precisions, index `T` is the prior. -/
def XI.augLogit (p : XI) (training : Bool) (st : BNState) (B T : ℕ)
    (x : Tensor3) : Tensor3 :=
  fun b c t => if t < T then p.logprec training st B T x b c t else p.prior_logprec c

/-- `weight_attn = softmax(cat(...), dim=2)` over the augmented `T + 1` axis. -/
def XI.weightAttn (p : XI) (training : Bool) (st : BNState) (B T : ℕ)
    (x : Tensor3) : Tensor3 :=
  softmaxTime (T + 1) (p.augLogit training st B T x)

/-- The augmented value sequence
`torch.cat((feat, prior_mean.repeat(B, 1).unsqueeze(2)), 2)`. -/
def XI.augX (p : XI) (T : ℕ) (x : Tensor3) : Tensor3 :=
  fun b c t => if t < T then x b c t else p.prior_mean c

/-- The posterior total precision `Ls` (computed but unused by the return
value). -/
def XI.Ls (p : XI) (training : Bool) (st : BNState) (B T : ℕ)
    (x : Tensor3) (b c : ℕ) : ℝ :=
  ∑ t ∈ range (T + 1), Real.exp (p.augLogit training st B T x b c t)

/-- The posterior mean `phi = torch.sum(cat(...) * weight_attn, dim=2)`. -/
def XI.phi (p : XI) (training : Bool) (st : BNState) (B T : ℕ)
    (x : Tensor3) (b c : ℕ) : ℝ :=
  ∑ t ∈ range (T + 1), p.augX T x b c t * p.weightAttn training st B T x b c t

/-- The posterior standard deviation
`sqrt(clamp(sigma2 - phi^2, min=1.0e-12))` where
`sigma2 = torch.sum(cat(...).pow(2) * weight_attn, dim=2)`. -/
def XI.sigma (p : XI) (training : Bool) (st : BNState) (B T : ℕ)
    (x : Tensor3) (b c : ℕ) : ℝ :=
  Real.sqrt
    (max ((∑ t ∈ range (T + 1), p.augX T x b c t ^ 2 * p.weightAttn training st B T x b c t) -
      p.phi training st B T x b c ^ 2) 1e-12)

/-- `XI.get_out_dim`: returns `output_dim`, set at construction to
`2 * in_dim` with `stddev` and `in_dim` without. -/
def XI.get_out_dim (p : XI) : ℕ :=
  if p.stddev then 2 * p.input_dim else p.input_dim

/-! ## Dynamic-rank inputs and outputs

Python forwards inspect `x.shape`; `PIn` carries the rank and extents, `POut`
carries the rank and extents of the returned tensor (or the message of a
failed `assert`). -/

/-- A forward-call argument: a rank-3 or rank-4 tensor with its extents. -/
inductive PIn where
  | t3 : ℕ → ℕ → ℕ → Tensor3 → PIn
  | t4 : ℕ → ℕ → ℕ → ℕ → Tensor4 → PIn

/-- A forward-call result with its shape, or a raised assertion. -/
inductive POut where
  | r2 : ℕ → ℕ → (ℕ → ℕ → ℝ) → POut
  | r3 : ℕ → ℕ → ℕ → (ℕ → ℕ → ℕ → ℝ) → POut
  | err : String → POut

/-- The size of the last axis of a result tensor. -/
def POut.lastAxis : POut → Option ℕ
  | POut.r2 _ d _ => some d
  | POut.r3 _ _ e _ => some e
  | POut.err _ => none

/-- The size of the middle (channel) axis of a rank-3 result tensor. -/
def POut.midAxis : POut → Option ℕ
  | POut.r3 _ d _ _ => some d
  | _ => none

/-- `x = x.reshape(x.shape[0], x.shape[1] * x.shape[2], x.shape[3])` on a
rank-4 input: channel and frequency merge row-major into one axis of size
`C * F`, so merged channel `i` reads `(i / F, i % F)`; rank-3 inputs pass
through unchanged. -/
def mergeCF : PIn → PIn
  | PIn.t4 B C F T x => PIn.t3 B (C * F) T (fun b i t => x b (i / F) (i % F) t)
  | p => p

/-- `ASTP.forward`: reshape a rank-4 input, then pool; the result is
`(B, 2 * C)` for a (merged) `C`-channel input. -/
def ASTP.forwardDyn (p : ASTP) (inp : PIn) : POut :=
  match mergeCF inp with
  | PIn.t3 B C T x => POut.r2 B (2 * C) (p.fwd3 C T x)
  | PIn.t4 _ _ _ _ _ => POut.err "unreachable"

/-- `MHASTP.forward`: reshape a rank-4 input, then pool per head. -/
def MHASTP.forwardDyn (p : MHASTP) (inp : PIn) : POut :=
  match mergeCF inp with
  | PIn.t3 B C T x => POut.r2 B (2 * C) (p.fwd3 T x)
  | PIn.t4 _ _ _ _ _ => POut.err "unreachable"

/-- `MQMHASTP.forward`: reshape a rank-4 input, run every child on the same
merged tensor, concatenate along the last axis. -/
def MQMHASTP.forwardDyn (m : MQMHASTP) (inp : PIn) : POut :=
  match mergeCF inp with
  | PIn.t3 B C T x => POut.r2 B (2 * C * m.query_num) (m.fwd3 C T x)
  | PIn.t4 _ _ _ _ _ => POut.err "unreachable"

/-- `XI.forward`: asserts a rank-3 input whose channel axis equals
`input_dim` (no rank-4 reshape), returns `(phi, sigma)` stacked as
`(B, 2 * C, 1)` when `stddev` and `phi` as `(B, C)` otherwise, and performs
the batch-norm buffer update of `lin1_relu_bn`. -/
def XI.forwardDyn (p : XI) (training : Bool) (st : BNState) :
    PIn → POut × BNState
  | PIn.t4 _ _ _ _ _ => (POut.err "AssertionError: rank", st)
  | PIn.t3 B C T x =>
      if C = p.input_dim then
        (if p.stddev then
          POut.r3 B (2 * C) 1
            (fun b c _ =>
              if c < C then p.phi training st B T x b c
              else p.sigma training st B T x b (c - C))
        else POut.r2 B C (p.phi training st B T x),
        p.bn.step training st B T (p.preact x))
      else (POut.err "AssertionError: channel", st)

/-- `ASTP.get_out_dim`: `2 * in_dim`. -/
def ASTP.get_out_dim (p : ASTP) : ℕ := 2 * p.in_dim

/-- `MHASTP.get_out_dim`: `2 * in_dim`. -/
def MHASTP.get_out_dim (p : MHASTP) : ℕ := 2 * p.in_dim

/-- `MQMHASTP.get_out_dim`: `in_dim * 2 * query_num`. -/
def MQMHASTP.get_out_dim (m : MQMHASTP) : ℕ := m.in_dim * 2 * m.query_num

/-! ## Concrete instances used by witnesses and counterexamples -/

/-- A `Conv1d` with all-zero weights and biases. -/
def zeroConv : Conv1d := ⟨fun _ _ => 0, fun _ => 0⟩

/-- The all-zero rank-3 tensor. -/
def zeroT : Tensor3 := fun _ _ _ => 0

/-- The all-one rank-3 tensor. -/
def onesT : Tensor3 := fun _ _ _ => 1

/-- The all-one rank-4 tensor. -/
def ones4 : Tensor4 := fun _ _ _ _ => 1

/-- Freshly initialized batch-norm buffers (zero running statistics, zero
batches tracked). -/
def bnSt0 : BNState := ⟨fun _ => 0, fun _ => 0, 0⟩

/-- A batch norm whose scale is zero (so its output is identically zero)
with the default momentum 0.1 and eps 1e-5. -/
def bnGamma0 : BatchNorm := ⟨fun _ => 0, fun _ => 0, 0.1, 1e-5⟩

/-- All-zero scorer parameters for every layer. -/
def trivialHeads : ℕ → HeadTrans := fun _ => ⟨fun _ => zeroConv⟩

/-- A small concrete `ASTP` (`in_dim = 1`, no global context). -/
def astp0 : ASTP := ⟨1, 1, false, zeroConv, zeroConv⟩

/-- A small concrete `MHASTP` (`in_dim = 1`, one head, one layer). -/
def mh0 : MHASTP := ⟨1, 1, 1, 1, 1, trivialHeads⟩

/-- A concrete `MHASTP` with `in_dim = 2`, `head_num = 2` (so `d_model = 1`). -/
def mh2 : MHASTP := ⟨2, 1, 2, 1, 1, trivialHeads⟩

/-- A small concrete `MQMHASTP` (one query, one head, `in_dim = 1`). -/
def mq0 : MQMHASTP := ⟨1, 1, 1, 1, 1, 1, fun _ => trivialHeads⟩

/-- The second convolution of the `XI` counterexample: zero weights, bias 21
(inside the linear region of the softplus). -/
def c5lin2 : Conv1d := ⟨fun _ _ => 0, fun _ => 21⟩

/-- A concrete `XI` with `stddev = true`, zero priors, zero `lin1`, a
zero-scale batch norm and `lin2` outputting the constant 21. -/
def xiC5 : XI := ⟨1, 1, true, fun _ => 0, fun _ => 0, zeroConv, bnGamma0, c5lin2⟩

/-- A concrete `XI` with `stddev = false`. -/
def xi0f : XI := ⟨1, 1, false, fun _ => 0, fun _ => 0, zeroConv, bnGamma0, zeroConv⟩

/-- A tensor that differs from `zeroT` exactly on channel 1. -/
def xPert : Tensor3 := fun _ c _ => if c = 1 then 5 else 0

/-! ## Claims -/

/-- Claim C2 (confirmed): for every input, the attention weights computed
inside every attentive pooler — `ASTP`'s `alpha`, each `MHASTP` head's
`alpha`, and `XI`'s `weight_attn` over its augmented `T + 1` axis — are
non-negative and sum to 1 along the time axis for every (batch,
channel-or-group) pair. -/
theorem attention_weights_probability (T : ℕ) (hT : 0 < T) (x : Tensor3)
    (b c t : ℕ) :
    (∀ p : ASTP, 0 ≤ p.alpha T x b c t ∧ ∑ u ∈ range T, p.alpha T x b c u = 1)
  ∧ (∀ (p : MHASTP) (h : ℕ),
      0 ≤ p.alphaH h T x b c t ∧ ∑ u ∈ range T, p.alphaH h T x b c u = 1)
  ∧ (∀ (p : XI) (tr : Bool) (st : BNState) (B : ℕ),
      0 ≤ p.weightAttn tr st B T x b c t
      ∧ ∑ u ∈ range (T + 1), p.weightAttn tr st B T x b c u = 1) :=
  ⟨fun _ => ⟨softmaxTime_nonneg T _ b c t, softmaxTime_sum T hT _ b c⟩,
   fun _ _ => ⟨softmaxTime_nonneg T _ b c t, softmaxTime_sum T hT _ b c⟩,
   fun _ _ _ _ => ⟨softmaxTime_nonneg (T + 1) _ b c t,
     softmaxTime_sum (T + 1) (Nat.succ_pos T) _ b c⟩⟩

/-- Witness for C2: the probability law evaluated on concrete poolers at
`T = 1`. -/
theorem attention_weights_probability_witness :
    (0 < 1)
  ∧ (0 ≤ astp0.alpha 1 zeroT 0 0 0 ∧ ∑ u ∈ range 1, astp0.alpha 1 zeroT 0 0 u = 1)
  ∧ (0 ≤ mh0.alphaH 0 1 zeroT 0 0 0 ∧ ∑ u ∈ range 1, mh0.alphaH 0 1 zeroT 0 0 u = 1)
  ∧ (0 ≤ xi0f.weightAttn false bnSt0 1 1 zeroT 0 0 0
      ∧ ∑ u ∈ range (1 + 1), xi0f.weightAttn false bnSt0 1 1 zeroT 0 0 u = 1) :=
  ⟨Nat.one_pos,
   (attention_weights_probability 1 Nat.one_pos zeroT 0 0 0).1 astp0,
   (attention_weights_probability 1 Nat.one_pos zeroT 0 0 0).2.1 mh0 0,
   (attention_weights_probability 1 Nat.one_pos zeroT 0 0 0).2.2 xi0f false bnSt0 1⟩

/-- Claim C7 (confirmed): on an input with exactly one time step, the softmax
weight over time is exactly 1 for every (batch, channel) pair of `ASTP` and of
every `MHASTP` head, the weighted mean equals the single frame's value, and
the weighted standard deviation is the square root of the 1e-7 variance
floor. -/
theorem single_frame_degenerate (x : Tensor3) (b c : ℕ) :
    (∀ p : ASTP,
      p.alpha 1 x b c 0 = 1
      ∧ p.meanOut 1 x b c = x b c 0
      ∧ p.stdOut 1 x b c = Real.sqrt 1e-7)
  ∧ (∀ (p : MHASTP) (h : ℕ),
      p.alphaH h 1 x b c 0 = 1
      ∧ p.headMean h 1 x b c = p.chunk h x b c 0
      ∧ p.headStd h 1 x b c = Real.sqrt 1e-7) := by
  have hsm : ∀ (s : Tensor3) (b' c' : ℕ), softmaxTime 1 s b' c' 0 = 1 := by
    intro s b' c'
    simp only [softmaxTime, Finset.sum_range_one]
    exact div_self (Real.exp_ne_zero _)
  constructor
  · intro p
    have ha : p.alpha 1 x b c 0 = 1 := hsm _ b c
    have hm : p.meanOut 1 x b c = x b c 0 := by
      simp [ASTP.meanOut, Finset.sum_range_one, ha]
    refine ⟨ha, hm, ?_⟩
    simp only [ASTP.stdOut, Finset.sum_range_one, ha, hm, one_mul]
    rw [show x b c 0 ^ 2 - x b c 0 ^ 2 = 0 by ring, max_eq_right (by norm_num)]
  · intro p h
    have ha : ∀ c', p.alphaH h 1 x b c' 0 = 1 := fun c' => hsm _ b c'
    have hm : p.headMean h 1 x b c = p.chunk h x b c 0 := by
      simp [MHASTP.headMean, Finset.sum_range_one, ha]
    refine ⟨ha c, hm, ?_⟩
    simp only [MHASTP.headStd, Finset.sum_range_one, ha, hm, one_mul]
    rw [show p.chunk h x b c 0 ^ 2 - p.chunk h x b c 0 ^ 2 = 0 by ring,
      max_eq_right (by norm_num)]

/-- Claim C10 (confirmed): `XI`'s softmax over the augmented time axis gives
non-negative weights summing to 1, assigns a strictly positive weight to the
appended prior virtual frame (index `T`), and the posterior mean `phi` is the
corresponding convex combination of the `T` frame values and `prior_mean`. -/
theorem xi_prior_weight_positive (p : XI) (tr : Bool) (st : BNState)
    (B T : ℕ) (x : Tensor3) (b c : ℕ) :
    (∀ t, 0 ≤ p.weightAttn tr st B T x b c t)
  ∧ (∑ t ∈ range (T + 1), p.weightAttn tr st B T x b c t = 1)
  ∧ 0 < p.weightAttn tr st B T x b c T
  ∧ p.phi tr st B T x b c
      = (∑ t ∈ range T, x b c t * p.weightAttn tr st B T x b c t)
        + p.prior_mean c * p.weightAttn tr st B T x b c T := by
  refine ⟨fun t => softmaxTime_nonneg (T + 1) _ b c t,
    softmaxTime_sum (T + 1) (Nat.succ_pos T) _ b c,
    softmaxTime_pos (T + 1) (Nat.succ_pos T) _ b c T, ?_⟩
  unfold XI.phi
  rw [Finset.sum_range_succ]
  congr 1
  · apply Finset.sum_congr rfl
    intro t htm
    have ht := Finset.mem_range.mp htm
    unfold XI.augX
    rw [if_pos ht]
  · unfold XI.augX
    rw [if_neg (lt_irrefl T)]

/-- Claim C1 (corrected): `get_out_dim` is a pure function of configuration
and matches the sizes of the forward output: for `ASTP`, `MHASTP`, `MQMHASTP`
and `XI` without `stddev` it equals the last-axis size of the rank-2 output;
for `XI` with `stddev` the output is rank-3 `(B, get_out_dim, 1)`, so
`get_out_dim` is the middle (channel) axis and the last axis has size 1. -/
theorem get_out_dim_matches_output_axes :
    (∀ (p : ASTP) (B T : ℕ) (x : Tensor3),
      (p.forwardDyn (PIn.t3 B p.in_dim T x)).lastAxis = some p.get_out_dim)
  ∧ (∀ (p : MHASTP) (B T : ℕ) (x : Tensor3),
      (p.forwardDyn (PIn.t3 B p.in_dim T x)).lastAxis = some p.get_out_dim)
  ∧ (∀ (m : MQMHASTP) (B T : ℕ) (x : Tensor3),
      (m.forwardDyn (PIn.t3 B m.in_dim T x)).lastAxis = some m.get_out_dim)
  ∧ (∀ (C h : ℕ) (pm pl : ℕ → ℝ) (l1 : Conv1d) (bn : BatchNorm) (l2 : Conv1d)
      (tr : Bool) (st : BNState) (B T : ℕ) (x : Tensor3),
      ((XI.mk C h false pm pl l1 bn l2).forwardDyn tr st (PIn.t3 B C T x)).1.lastAxis
        = some (XI.mk C h false pm pl l1 bn l2).get_out_dim)
  ∧ (∀ (C h : ℕ) (pm pl : ℕ → ℝ) (l1 : Conv1d) (bn : BatchNorm) (l2 : Conv1d)
      (tr : Bool) (st : BNState) (B T : ℕ) (x : Tensor3),
      ((XI.mk C h true pm pl l1 bn l2).forwardDyn tr st (PIn.t3 B C T x)).1.midAxis
        = some (XI.mk C h true pm pl l1 bn l2).get_out_dim
      ∧ ((XI.mk C h true pm pl l1 bn l2).forwardDyn tr st (PIn.t3 B C T x)).1.lastAxis
        = some 1) := by
  refine ⟨fun p B T x => rfl, fun p B T x => rfl, fun m B T x => ?_,
    fun C h pm pl l1 bn l2 tr st B T x => ?_,
    fun C h pm pl l1 bn l2 tr st B T x => ?_⟩
  · simp only [MQMHASTP.forwardDyn, mergeCF, POut.lastAxis, MQMHASTP.get_out_dim]
    congr 1
    ring
  · simp [XI.forwardDyn, XI.get_out_dim, POut.lastAxis]
  · simp [XI.forwardDyn, XI.get_out_dim, POut.lastAxis, POut.midAxis]

/-- Counterexample to C1 as stated: for `XI` with `stddev = true` the forward
output is rank-3 with last axis of size 1, which differs from
`get_out_dim() = 2`. -/
theorem xi_stddev_last_axis_counterexample :
    ((xiC5.forwardDyn false bnSt0 (PIn.t3 1 1 1 zeroT)).1.lastAxis = some 1)
  ∧ xiC5.get_out_dim = 2
  ∧ ((xiC5.forwardDyn false bnSt0 (PIn.t3 1 1 1 zeroT)).1.lastAxis
      ≠ some xiC5.get_out_dim) := by
  refine ⟨?_, ?_, ?_⟩ <;>
    simp [XI.forwardDyn, XI.get_out_dim, POut.lastAxis, xiC5]

/-- Claim C6 (corrected): `ASTP`, `MHASTP` and `MQMHASTP` forwards are pure
functions of parameters and input (they carry no mutable state in this
model, because the source gives them none).  `XI`'s forward in eval mode
returns the batch-norm buffers unchanged, and its training-mode output does
not depend on those buffers, so two successive forward calls on equal inputs
return equal outputs in either mode — but a training-mode call does mutate
the buffers (see the counterexample). -/
theorem xi_forward_state_effects (p : XI) (st st' : BNState) (inp : PIn) :
    (p.forwardDyn false st inp).2 = st
  ∧ (p.forwardDyn true st inp).1 = (p.forwardDyn true st' inp).1 := by
  constructor
  · cases inp with
    | t4 B C F T x => rfl
    | t3 B C T x =>
        simp only [XI.forwardDyn]
        by_cases hC : C = p.input_dim
        · rw [if_pos hC]
          simp [BatchNorm.step]
        · rw [if_neg hC]
  · cases inp with
    | t4 B C F T x => rfl
    | t3 B C T x =>
        simp only [XI.forwardDyn]
        by_cases hC : C = p.input_dim
        · rw [if_pos hC, if_pos hC]
          exact rfl
        · rw [if_neg hC, if_neg hC]

/-- Counterexample to C6 as stated: a training-mode `XI` forward call
increments the batch norm's `num_batches_tracked` buffer, so it does mutate
pooler state. -/
theorem xi_training_forward_mutates_state :
    (xiC5.forwardDyn true bnSt0 (PIn.t3 2 1 1 onesT)).2 ≠ bnSt0 := by
  intro h
  have hn := congrArg BNState.num_batches_tracked h
  simp [XI.forwardDyn, BatchNorm.step, bnSt0, xiC5] at hn

/-- Claim C8 (corrected): `ASTP`, `MHASTP` and `MQMHASTP` first merge the
channel and frequency axes of a rank-4 input (row-major, merged channel `i`
reading original `(i / F, i % F)`) and then behave exactly as on that merged
rank-3 tensor.  `XI` performs no such reshape: its forward asserts rank 3 and
rejects every rank-4 input. -/
theorem rank4_reshape_normalization :
    (∀ (p : ASTP) (B C F T : ℕ) (x : Tensor4),
      p.forwardDyn (PIn.t4 B C F T x)
        = p.forwardDyn (PIn.t3 B (C * F) T (fun b i t => x b (i / F) (i % F) t)))
  ∧ (∀ (p : MHASTP) (B C F T : ℕ) (x : Tensor4),
      p.forwardDyn (PIn.t4 B C F T x)
        = p.forwardDyn (PIn.t3 B (C * F) T (fun b i t => x b (i / F) (i % F) t)))
  ∧ (∀ (m : MQMHASTP) (B C F T : ℕ) (x : Tensor4),
      m.forwardDyn (PIn.t4 B C F T x)
        = m.forwardDyn (PIn.t3 B (C * F) T (fun b i t => x b (i / F) (i % F) t)))
  ∧ (∀ (p : XI) (tr : Bool) (st : BNState) (B C F T : ℕ) (x : Tensor4),
      (p.forwardDyn tr st (PIn.t4 B C F T x)).1 = POut.err "AssertionError: rank") :=
  ⟨fun _ _ _ _ _ _ => rfl, fun _ _ _ _ _ _ => rfl, fun _ _ _ _ _ _ => rfl,
   fun _ _ _ _ _ _ _ _ => rfl⟩

/-- Counterexample to C8 as stated: `XI` on a rank-4 input raises instead of
reshaping, so its result differs from its result on the merged rank-3
tensor. -/
theorem xi_skips_rank4_reshape_counterexample :
    (xi0f.forwardDyn false bnSt0 (PIn.t4 1 1 1 1 ones4)).1
      ≠ (xi0f.forwardDyn false bnSt0 (mergeCF (PIn.t4 1 1 1 1 ones4))).1 := by
  simp [XI.forwardDyn, mergeCF, xi0f]

/-- Claim C9 (corrected): with a positive `head_num`, `MHASTP` construction
succeeds exactly when `head_num` divides `in_dim`, and so does `MQMHASTP`
construction provided `query_num ≥ 1` (each child `MHASTP` is built eagerly,
so the first child's assert fires during `MQMHASTP.__init__`).  With
`query_num = 0` no child is ever built and the check is skipped (see the
counterexample). -/
theorem divisibility_checked_at_construction (in_dim l h ds bd q : ℕ)
    (hs : ℕ → HeadTrans) (qh : ℕ → ℕ → HeadTrans) (hh : 0 < h) :
    (isOkE (MHASTP.init in_dim l h ds bd hs) = true ↔ in_dim % h = 0)
  ∧ (1 ≤ q →
      (isOkE (MQMHASTP.init in_dim l q h ds bd qh) = true ↔ in_dim % h = 0)) := by
  have hne : ¬ h = 0 := by omega
  constructor
  · unfold MHASTP.init
    rw [if_neg hne]
    by_cases hdiv : in_dim % h = 0
    · rw [if_pos hdiv]
      simp [isOkE, hdiv]
    · rw [if_neg hdiv]
      simp [isOkE, hdiv]
  · intro hq
    unfold MQMHASTP.init
    by_cases hdiv : in_dim % h = 0
    · have hok : ∀ n, ∃ lst,
          MQMHASTP.buildChildren in_dim l h ds bd qh n = Except.ok lst := by
        intro n
        induction n with
        | zero => exact ⟨[], rfl⟩
        | succ n ih =>
            obtain ⟨lst, hlst⟩ := ih
            refine ⟨lst ++ [⟨in_dim, l, h, ds, bd, qh n⟩], ?_⟩
            simp [MQMHASTP.buildChildren, hlst, MHASTP.init, if_neg hne, hdiv,
              Bind.bind, Except.bind]
      obtain ⟨lst, hlst⟩ := hok q
      rw [hlst]
      simp [isOkE, hdiv]
    · have herr : ∀ n, 1 ≤ n →
          MQMHASTP.buildChildren in_dim l h ds bd qh n
            = Except.error "AssertionError" := by
        intro n
        induction n with
        | zero => omega
        | succ n ih =>
            intro _
            rcases Nat.eq_zero_or_pos n with hn | hn
            · subst hn
              simp [MQMHASTP.buildChildren, MHASTP.init, if_neg hne, hdiv,
                Bind.bind, Except.bind]
            · simp [MQMHASTP.buildChildren, ih hn, Bind.bind, Except.bind]
      rw [herr q hq]
      simp [isOkE, hdiv]

/-- Witness for C9: the divisibility check evaluated at concrete
configurations (`in_dim = 3`, `head_num = 2`, one query). -/
theorem divisibility_checked_at_construction_witness :
    (0 < 2) ∧ (1 ≤ 1)
  ∧ (isOkE (MHASTP.init 3 2 2 1 64 trivialHeads) = true ↔ 3 % 2 = 0)
  ∧ (isOkE (MQMHASTP.init 3 2 1 2 1 64 (fun _ => trivialHeads)) = true ↔ 3 % 2 = 0) :=
  ⟨Nat.zero_lt_two, le_refl 1,
   (divisibility_checked_at_construction 3 2 2 1 64 1 trivialHeads
     (fun _ => trivialHeads) Nat.zero_lt_two).1,
   (divisibility_checked_at_construction 3 2 2 1 64 1 trivialHeads
     (fun _ => trivialHeads) Nat.zero_lt_two).2 (le_refl 1)⟩

/-- Counterexample to C9 as stated: `MQMHASTP` with `query_num = 0` builds no
children, so an indivisible `in_dim`/`head_num` pair is accepted at
construction time. -/
theorem mqmhastp_zero_query_constructs :
    ¬ (3 % 2 = 0)
  ∧ isOkE (MQMHASTP.init 3 2 0 2 2 64 (fun _ => trivialHeads)) = true :=
  ⟨by decide, rfl⟩

/-- Two inputs that agree on head `h`'s channel block (at the first `T` time
steps) produce equal scorer stages at those time steps: stage 0 is the chunk
itself (where only channels below `d_model` are read), and each later stage
only reads the previous stage's channels below `cd k` at the same time
step. -/
theorem MHASTP.stage_congr (p : MHASTP) (h T : ℕ) (x x' : Tensor3)
    (hL : 1 ≤ p.layer_num)
    (hx : ∀ b t, t < T → ∀ j, j < p.d_model →
      x b (h * p.d_model + j) t = x' b (h * p.d_model + j) t) :
    ∀ k b c t, t < T → (c < p.d_model ∨ k ≠ 0) →
      p.stage h x k b c t = p.stage h x' k b c t := by
  intro k
  induction k with
  | zero =>
      intro b c t ht hc
      rcases hc with hc | hc
      · exact hx b t ht c hc
      · exact absurd rfl hc
  | succ k ih =>
      intro b c t ht _
      have hcd0 : p.cd 0 = p.d_model := by
        unfold MHASTP.cd
        rw [if_neg (by omega), if_pos rfl]
      have harg : ∀ c', c' < p.cd k → p.stage h x k b c' t = p.stage h x' k b c' t := by
        intro c' hc'
        apply ih b c' t ht
        rcases Nat.eq_zero_or_pos k with hk | hk
        · left
          subst hk
          omega
        · right
          omega
      simp only [MHASTP.stage, Conv1d.apply]
      have hsum :
          (∑ j ∈ range (p.cd k), ((p.heads h).convs k).weight c j * p.stage h x k b j t)
            = ∑ j ∈ range (p.cd k), ((p.heads h).convs k).weight c j * p.stage h x' k b j t := by
        apply Finset.sum_congr rfl
        intro j hj
        rw [harg j (Finset.mem_range.mp hj)]
      rw [hsum]

/-- Claim C3 (confirmed): head independence of `MHASTP`.  Each head's (mean,
std) pair is computed only from its own contiguous channel block, so any two
inputs that agree on head `i`'s block produce identical output columns for
head `i` (the columns `o` with `o / (2 * d_model) = i`). -/
theorem mhastp_head_independence (p : MHASTP) (T i o b : ℕ) (x x' : Tensor3)
    (hL : 1 ≤ p.layer_num) (hd : 0 < p.d_model)
    (hx : ∀ b' t, t < T → ∀ j, j < p.d_model →
      x b' (i * p.d_model + j) t = x' b' (i * p.d_model + j) t)
    (ho : o / (2 * p.d_model) = i) :
    p.fwd3 T x b o = p.fwd3 T x' b o := by
  have hcd0 : p.cd 0 = p.d_model := by
    unfold MHASTP.cd
    rw [if_neg (by omega), if_pos rfl]
  have hstage := MHASTP.stage_congr p i T x x' hL hx
  have hscore : ∀ b' c t, t < T → p.attScore i x b' c t = p.attScore i x' b' c t := by
    intro b' c t ht
    unfold MHASTP.attScore
    simp only [Conv1d.apply]
    have hsum :
        (∑ j ∈ range (p.cd (p.layer_num - 1)),
            ((p.heads i).convs (p.layer_num - 1)).weight c j *
              p.stage i x (p.layer_num - 1) b' j t)
          = ∑ j ∈ range (p.cd (p.layer_num - 1)),
              ((p.heads i).convs (p.layer_num - 1)).weight c j *
                p.stage i x' (p.layer_num - 1) b' j t := by
      apply Finset.sum_congr rfl
      intro j hj
      have hjlt := Finset.mem_range.mp hj
      apply congrArg
      apply hstage (p.layer_num - 1) b' j t ht
      rcases Nat.eq_zero_or_pos (p.layer_num - 1) with hk | hk
      · left
        rw [hk] at hjlt
        omega
      · right
        omega
    rw [hsum]
  have halpha : ∀ c t, t < T → p.alphaH i T x b c t = p.alphaH i T x' b c t := by
    intro c t ht
    unfold MHASTP.alphaH softmaxTime
    rw [hscore b c t ht]
    congr 1
    apply Finset.sum_congr rfl
    intro u hu
    rw [hscore b c u (Finset.mem_range.mp hu)]
  have hchunk : ∀ j t, j < p.d_model → t < T →
      p.chunk i x b j t = p.chunk i x' b j t := by
    intro j t hj ht
    exact hx b t ht j hj
  have hmean : ∀ c, c < p.d_model → p.headMean i T x b c = p.headMean i T x' b c := by
    intro c hc
    unfold MHASTP.headMean
    apply Finset.sum_congr rfl
    intro t htm
    have ht := Finset.mem_range.mp htm
    rw [halpha _ t ht, hchunk c t hc ht]
  have hstd : ∀ c, c < p.d_model → p.headStd i T x b c = p.headStd i T x' b c := by
    intro c hc
    have hs : (∑ t ∈ range T, p.alphaH i T x b (c % p.dsEff) t * p.chunk i x b c t ^ 2)
        = ∑ t ∈ range T, p.alphaH i T x' b (c % p.dsEff) t * p.chunk i x' b c t ^ 2 := by
      apply Finset.sum_congr rfl
      intro t htm
      have ht := Finset.mem_range.mp htm
      rw [halpha _ t ht, hchunk c t hc ht]
    unfold MHASTP.headStd
    rw [hs, hmean c hc]
  have hr : o % (2 * p.d_model) < 2 * p.d_model := Nat.mod_lt _ (by omega)
  simp only [MHASTP.fwd3, ho]
  by_cases hlt : o % (2 * p.d_model) < p.d_model
  · rw [if_pos hlt, if_pos hlt]
    exact hmean _ hlt
  · rw [if_neg hlt, if_neg hlt]
    exact hstd _ (by omega)

/-- Witness for C3: `in_dim = 8` scaled down to `in_dim = 2`, `head_num = 2`
(`d_model = 1`): head 0's output column is unchanged when the input is
perturbed on channel 1, which belongs to head 1. -/
theorem mhastp_head_independence_witness :
    (1 ≤ mh2.layer_num) ∧ (0 < mh2.d_model)
  ∧ mh2.fwd3 1 zeroT 0 0 = mh2.fwd3 1 xPert 0 0 := by
  have hd : mh2.d_model = 1 := rfl
  refine ⟨le_refl 1, by omega, ?_⟩
  apply mhastp_head_independence mh2 1 0 0 0 zeroT xPert (le_refl 1) (by omega)
  · intro b' t ht j hj
    have hj0 : j = 0 := by omega
    subst hj0
    simp [zeroT, xPert]
  · rfl

/-- Left-to-right concatenation of the lists `g 0, g 1, …, g (n-1)` — the
`res` list the multi-query forward accumulates before `torch.cat`. -/
def catList (g : ℕ → List ℝ) : ℕ → List ℝ
  | 0 => []
  | n + 1 => catList g n ++ g n

/-- If every block has length `w`, the concatenation of `n` blocks has
length `n * w`. -/
theorem catList_length (g : ℕ → List ℝ) (w : ℕ) (hw : ∀ q, (g q).length = w) :
    ∀ n, (catList g n).length = n * w := by
  intro n
  induction n with
  | zero => simp [catList]
  | succ n ih => simp [catList, ih, hw, Nat.succ_mul]

/-- Entry `w * q + j` of a concatenation of equal-width blocks is entry `j`
of block `q`. -/
theorem catList_getD (g : ℕ → List ℝ) (w : ℕ) (hw : ∀ q, (g q).length = w) :
    ∀ n q j, q < n → j < w →
      (catList g n).getD (w * q + j) 0 = (g q).getD j 0 := by
  intro n
  induction n with
  | zero =>
      intro q j hq _
      omega
  | succ n ih =>
      intro q j hq hj
      by_cases hqn : q < n
      · have hlt : w * q + j < (catList g n).length := by
          rw [catList_length g w hw n]
          have e1 : w * (q + 1) = w * q + w := by ring
          have h2 : w * (q + 1) ≤ w * n := Nat.mul_le_mul_left w (by omega)
          have hcomm : n * w = w * n := Nat.mul_comm n w
          omega
        rw [show catList g (n + 1) = catList g n ++ g n from rfl]
        rw [List.getD_append _ _ _ _ hlt]
        exact ih q j hqn hj
      · have hqe : q = n := by omega
        subst hqe
        rw [show catList g (q + 1) = catList g q ++ g q from rfl]
        have hlen : (catList g q).length = q * w := catList_length g w hw q
        have hcomm : q * w = w * q := Nat.mul_comm q w
        have hge : (catList g q).length ≤ w * q + j := by omega
        rw [List.getD_append_right _ _ _ _ hge]
        congr 1
        omega

/-- The multi-query law as the spec words it: the forward output is the
concatenation, in instantiation order, of the `query_num` children's forward
outputs on the same, unpartitioned full input (each child's output being the
`2 * C`-wide list of its forward values for one batch element). -/
def MQMHASTP.specConcat (m : MQMHASTP) (C T : ℕ) (x : Tensor3) (b : ℕ) : List ℝ :=
  catList (fun q => List.ofFn (fun j : Fin (2 * C) => (m.child q).fwd3 T x b j))
    m.query_num

/-- Claim C4 (confirmed): the `MQMHASTP` forward output is the concatenation,
in instantiation order, of the outputs of its `query_num` independently
parameterized `MHASTP` children, each applied to the same unpartitioned
input: output column `2 * C * q + j` equals child `q`'s column `j`, the
spec-side concatenation has total width `2 * C * query_num`, it agrees with
the forward output entrywise, and `get_out_dim` equals that total width for a
valid (`C = in_dim`) input. -/
theorem mqmhastp_concat_of_children (m : MQMHASTP) (C T b q j : ℕ)
    (x : Tensor3) (hq : q < m.query_num) (hj : j < 2 * C) (hC : 0 < C) :
    m.fwd3 C T x b (2 * C * q + j) = (m.child q).fwd3 T x b j
  ∧ (m.specConcat C T x b).length = 2 * C * m.query_num
  ∧ (m.specConcat C T x b).getD (2 * C * q + j) 0 = m.fwd3 C T x b (2 * C * q + j)
  ∧ (C = m.in_dim → m.get_out_dim = 2 * C * m.query_num) := by
  have hw : ∀ q', (List.ofFn (fun j' : Fin (2 * C) => (m.child q').fwd3 T x b j')).length
      = 2 * C := fun q' => List.length_ofFn _
  have hdiv : (2 * C * q + j) / (2 * C) = q := by
    rw [Nat.mul_add_div (by omega), Nat.div_eq_of_lt hj]
    omega
  have hmod : (2 * C * q + j) % (2 * C) = j := by
    rw [Nat.mul_add_mod, Nat.mod_eq_of_lt hj]
  have hblock : m.fwd3 C T x b (2 * C * q + j) = (m.child q).fwd3 T x b j := by
    simp only [MQMHASTP.fwd3, hdiv, hmod]
  refine ⟨hblock, ?_, ?_, ?_⟩
  · rw [MQMHASTP.specConcat, catList_length _ (2 * C) hw, Nat.mul_comm]
  · rw [MQMHASTP.specConcat, catList_getD _ (2 * C) hw m.query_num q j hq hj, hblock]
    have hjlen : j < (List.ofFn fun j' : Fin (2 * C) =>
        (m.child q).fwd3 T x b j').length := by
      rw [List.length_ofFn]
      exact hj
    rw [List.getD_eq_getElem _ _ hjlen, List.getElem_ofFn]
  · intro hCd
    simp only [MQMHASTP.get_out_dim, ← hCd]
    ring

/-- Witness for C4: the multi-query law evaluated on a concrete one-query,
one-head pooler at `C = 1`, `T = 1`. -/
theorem mqmhastp_concat_of_children_witness :
    (0 < mq0.query_num) ∧ (0 < 2 * 1) ∧ (0 < 1)
  ∧ mq0.fwd3 1 1 zeroT 0 (2 * 1 * 0 + 0) = (mq0.child 0).fwd3 1 zeroT 0 0
  ∧ (mq0.specConcat 1 1 zeroT 0).length = 2 * 1 * mq0.query_num :=
  ⟨Nat.one_pos, by omega, Nat.one_pos,
   (mqmhastp_concat_of_children mq0 1 1 0 0 0 zeroT Nat.one_pos (by omega)
     Nat.one_pos).1,
   (mqmhastp_concat_of_children mq0 1 1 0 0 0 zeroT Nat.one_pos (by omega)
     Nat.one_pos).2.1⟩

/-- Claim C5 (corrected): the posterior standard deviation of `XI` equals
`sqrt(1e-12)` (the clamped variance floor, never a square root of a negative
number) whenever every frame of a channel equals that channel's prior mean —
in particular for the all-zero input under the default zero prior.  Identical
frames alone do not suffice, because the prior mean is appended as an extra
virtual frame (see the counterexample). -/
theorem xi_std_floor_at_prior_mean (p : XI) (tr : Bool) (st : BNState)
    (B T b c : ℕ) (x : Tensor3)
    (hx : ∀ t, t < T → x b c t = p.prior_mean c) :
    p.sigma tr st B T x b c = Real.sqrt 1e-12 := by
  have haug : ∀ t ∈ range (T + 1), p.augX T x b c t = p.prior_mean c := by
    intro t _
    unfold XI.augX
    by_cases ht : t < T
    · rw [if_pos ht]
      exact hx t ht
    · rw [if_neg ht]
  have hsum : ∑ t ∈ range (T + 1), p.weightAttn tr st B T x b c t = 1 :=
    softmaxTime_sum (T + 1) (Nat.succ_pos T) _ b c
  have hphi : p.phi tr st B T x b c = p.prior_mean c := by
    unfold XI.phi
    rw [Finset.sum_congr rfl fun t htm => by rw [haug t htm]]
    rw [← Finset.mul_sum, hsum, mul_one]
  have hs2 : (∑ t ∈ range (T + 1),
      p.augX T x b c t ^ 2 * p.weightAttn tr st B T x b c t)
        = p.prior_mean c ^ 2 := by
    rw [Finset.sum_congr rfl fun t htm => by rw [haug t htm]]
    rw [← Finset.mul_sum, hsum, mul_one]
  unfold XI.sigma
  rw [hs2, hphi, sub_self, max_eq_right (by norm_num)]

/-- Witness for C5 (amended): the all-zero input to the concrete `xiC5`
(whose prior mean is zero) yields a posterior std of exactly `sqrt(1e-12)`. -/
theorem xi_std_floor_at_prior_mean_witness :
    (∀ t, t < 1 → zeroT 0 0 t = xiC5.prior_mean 0)
  ∧ xiC5.sigma false bnSt0 1 1 zeroT 0 0 = Real.sqrt 1e-12 :=
  ⟨fun _ _ => rfl,
   xi_std_floor_at_prior_mean xiC5 false bnSt0 1 1 0 0 zeroT fun _ _ => rfl⟩

/-- Counterexample to C5 as stated: the all-one input with `T = 1` (all
frames trivially identical, zero true variance) fed to the concrete `xiC5`:
the appended prior frame (mean 0) keeps the augmented sequence's variance at
`441/195364`, far above the floor, so the returned std is not
`sqrt(1e-12)`. -/
theorem xi_identical_frames_std_counterexample :
    (∀ t t', t < 1 → t' < 1 → onesT 0 0 t = onesT 0 0 t')
  ∧ xiC5.stddev = true
  ∧ xiC5.sigma false bnSt0 1 1 onesT 0 0 ≠ Real.sqrt 1e-12 := by
  have hlp : xiC5.logprec false bnSt0 1 1 onesT 0 0 0 = 2 * Real.log 21 := by
    simp [XI.logprec, XI.preact, Conv1d.apply, BatchNorm.out, softplus, relu,
      xiC5, zeroConv, c5lin2, bnGamma0, bnSt0, Finset.sum_range_one]
    norm_num
  have h441 : Real.exp (2 * Real.log 21) = 441 := by
    rw [show (2 : ℝ) * Real.log 21 = Real.log (21 ^ 2) by
      rw [Real.log_pow]
      push_cast
      ring]
    rw [Real.exp_log (by norm_num)]
    norm_num
  have hden : (∑ u ∈ range (1 + 1),
      Real.exp (xiC5.augLogit false bnSt0 1 1 onesT 0 0 u)) = 442 := by
    rw [Finset.sum_range_succ, Finset.sum_range_one]
    simp only [XI.augLogit, Nat.lt_irrefl, if_false, Nat.zero_lt_one, if_true, hlp]
    rw [h441, show xiC5.prior_logprec 0 = 0 from rfl, Real.exp_zero]
    norm_num
  have hw0 : xiC5.weightAttn false bnSt0 1 1 onesT 0 0 0 = 441 / 442 := by
    unfold XI.weightAttn softmaxTime
    rw [hden]
    simp only [XI.augLogit, Nat.zero_lt_one, if_true, hlp, h441]
  have hw1 : xiC5.weightAttn false bnSt0 1 1 onesT 0 0 1 = 1 / 442 := by
    unfold XI.weightAttn softmaxTime
    rw [hden]
    simp only [XI.augLogit, Nat.lt_irrefl, if_false]
    rw [show xiC5.prior_logprec 0 = 0 from rfl, Real.exp_zero]
  have hphi : xiC5.phi false bnSt0 1 1 onesT 0 0 = 441 / 442 := by
    unfold XI.phi
    rw [Finset.sum_range_succ, Finset.sum_range_one, hw0, hw1]
    simp only [XI.augX, Nat.lt_irrefl, if_false, Nat.zero_lt_one, if_true]
    rw [show onesT 0 0 0 = 1 from rfl, show xiC5.prior_mean 0 = 0 from rfl]
    norm_num
  have hsig : xiC5.sigma false bnSt0 1 1 onesT 0 0 = Real.sqrt (441 / 195364) := by
    unfold XI.sigma
    rw [Finset.sum_range_succ, Finset.sum_range_one, hw0, hw1, hphi]
    simp only [XI.augX, Nat.lt_irrefl, if_false, Nat.zero_lt_one, if_true]
    rw [show onesT 0 0 0 = 1 from rfl, show xiC5.prior_mean 0 = 0 from rfl]
    rw [show (1 : ℝ) ^ 2 * (441 / 442) + 0 ^ 2 * (1 / 442) - (441 / 442) ^ 2
        = 441 / 195364 by norm_num]
    rw [max_eq_left (by norm_num)]
  refine ⟨fun _ _ _ _ => rfl, rfl, ?_⟩
  rw [hsig]
  intro hcontra
  have := (Real.sqrt_inj (by norm_num) (by norm_num)).mp hcontra
  norm_num at this
